import Mathlib

/-!
Verification of the go-toolkit schema-introspection core: the table
definition parser and index selector (`tableparser`), the version
comparator (`version`) and the identifier quoting helper (`quoter`).
Strings are modelled as lists of characters; Go regular expressions are
modelled by hand-rolled deterministic matchers that recognise the same
language on the inputs at hand; `(?m)` patterns are modelled line by
line.  A Go out-of-range panic is modelled as an explicit
`panicOutOfRange` outcome, and `os.Exit(1)` in `Findbestindex` as an
explicit `exitIndexNotFound` outcome.
-/

/-- Go strings are modelled as lists of characters. -/
abbrev Str := List Char

deriving instance DecidableEq for Except

/-! ## Generic string helpers -/

/-- `startsWith pat s`: `pat` is a prefix of `s`. -/
def startsWith : Str → Str → Bool
  | [], _ => true
  | _ :: _, [] => false
  | p :: ps, c :: cs => p = c && startsWith ps cs

/-- Substring containment, modelling `strings.Contains`. -/
def containsSub (hay pat : Str) : Bool :=
  match hay with
  | [] => startsWith pat []
  | _ :: rest => startsWith pat hay || containsSub rest pat

/-- Split on a single separator character, modelling `strings.Split`
with a one-character separator (always returns at least one part). -/
def splitOnChar (sep : Char) : Str → List Str
  | [] => [[]]
  | c :: cs =>
    if c = sep then [] :: splitOnChar sep cs
    else
      match splitOnChar sep cs with
      | [] => [[c]]
      | p :: ps => (c :: p) :: ps

/-- Remove every leading occurrence of `cut`, modelling
`strings.TrimLeft` with a one-character cutset. -/
def trimLeftChar (cut : Char) : Str → Str
  | [] => []
  | c :: cs => if c = cut then trimLeftChar cut cs else c :: cs

/-- Remove every trailing occurrence of `cut`, modelling
`strings.TrimRight` with a one-character cutset. -/
def trimRightChar (cut : Char) (s : Str) : Str :=
  (trimLeftChar cut s.reverse).reverse

/-- The character class `\s` of Go regular expressions:
`[\t\n\f\r ]`. -/
def isGoSpace (c : Char) : Bool :=
  c = '\t' || c = '\n' || c = '\x0c' || c = '\r' || c = ' '

/-- The character class `[0-9]`. -/
def isDigitChar (c : Char) : Bool :=
  c ∈ ['0', '1', '2', '3', '4', '5', '6', '7', '8', '9']

/-- `.*` of a non-multiline Go regular expression cannot cross a
newline: the string contains none. -/
def noNL (s : Str) : Bool := s.all (fun c => c ≠ '\n')

/-- The decimal digit character for a value below ten. -/
def digitChar (n : Nat) : Char := Char.ofNat (48 + n)

/-- Decimal rendering of a natural number (fuel-based so that it
computes by kernel reduction). -/
def natDecimalAux : Nat → Nat → Str → Str
  | 0, _, acc => acc
  | fuel + 1, n, acc =>
    if n < 10 then digitChar (n % 10) :: acc
    else natDecimalAux fuel (n / 10) (digitChar (n % 10) :: acc)

/-- Decimal rendering of a natural number, modelling `%d`. -/
def natDecimal (n : Nat) : Str := natDecimalAux (n + 1) n []

/-- Decimal rendering padded to width two, modelling `%02d`. -/
def pad2 (n : Nat) : Str :=
  if n < 10 then '0' :: natDecimal n else natDecimal n

/-- Numeric value of a digit string, modelling `strconv.Atoi` with the
error ignored (the callers only apply it to digit strings). -/
def natOfChars (s : Str) : Nat :=
  s.foldl (fun a c => a * 10 + (c.toNat - 48)) 0

/-- Byte-wise lexicographic `<` on strings, modelling the Go `<`
operator on strings (the strings compared are ASCII). -/
def goStrLt : Str → Str → Bool
  | [], [] => false
  | [], _ :: _ => true
  | _ :: _, [] => false
  | a :: as, b :: bs => if a = b then goStrLt as bs else decide (a < b)

/-! ## Stable sort, modelling `slices.SortedStableFunc`

Go's stable sort runs an insertion sort that moves each new element
left while it compares strictly below its left neighbour (that is the
whole algorithm for slices of at most twenty elements).  `goInsert`
performs exactly that insertion on the reversed prefix. -/

/-- Insert `x` into the reversed already-sorted prefix: `x` moves past
`y` exactly while `cmp x y < 0`. -/
def goInsert (cmp : α → α → Int) (x : α) : List α → List α
  | [] => [x]
  | y :: rest => if cmp x y < 0 then y :: goInsert cmp x rest else x :: y :: rest

/-- Insertion sort accumulating the reversed sorted prefix. -/
def goSortRev (cmp : α → α → Int) : List α → List α → List α
  | acc, [] => acc
  | acc, x :: xs => goSortRev cmp (goInsert cmp x acc) xs

/-- The stable sort of `slices.SortedStableFunc` with comparator
`cmp`. -/
def sortedStableFunc (cmp : α → α → Int) (l : List α) : List α :=
  (goSortRev cmp [] l).reverse

/-- Assignment `m[k] = v` on a Go map modelled as an association list
in insertion order (Go iteration order is unspecified; every theorem
below quantifies over arbitrary association lists). -/
def mapSet (m : List (Str × β)) (k : Str) (v : β) : List (Str × β) :=
  if (List.lookup k m).isSome then
    m.map (fun p => if p.1 = k then (k, v) else p)
  else m ++ [(k, v)]

/-! ## quoter -/

/-- `regexp.MustCompile("`").ReplaceAll(el, "``")`: double every
backtick. -/
def doubleBacktick : Str → Str
  | [] => []
  | c :: rest =>
    if c = '`' then '`' :: '`' :: doubleBacktick rest
    else c :: doubleBacktick rest

/-- `strings.ReplaceAll(s, "``", "`")`: collapse doubled backticks
(leftmost, non-overlapping). -/
def unDoubleBacktick : Str → Str
  | [] => []
  | [c] => [c]
  | c :: d :: rest =>
    if c = '`' && d = '`' then '`' :: unDoubleBacktick rest
    else c :: unDoubleBacktick (d :: rest)

/-- `quoter.Backtick`: wrap each value in backticks (doubling interior
backticks), join with `.`; the source appends a trailing dot per value
and trims the trailing dots at the end. -/
def Backtick (vals : List Str) : Str :=
  trimRightChar '.'
    (vals.foldl (fun acc el => acc ++ '`' :: (doubleBacktick el ++ ['`', '.'])) [])

/-- `quoter.Splitunbacktick`: split a possibly backticked qualified
name on `.`; when the split does not give exactly two parts, the
default database is used and the first part is the table; then strip
trailing and leading backticks and collapse doubled backticks. -/
def Splitunbacktick (dbtbl defdb : Str) : Str × Str :=
  let res := splitOnChar '.' dbtbl
  let db := if res.length = 2 then res.getD 0 [] else defdb
  let tbl := if res.length = 2 then res.getD 1 [] else res.getD 0 []
  let db := trimRightChar '`' db
  let tbl := trimRightChar '`' tbl
  let db := trimLeftChar '`' db
  let tbl := trimLeftChar '`' tbl
  (unDoubleBacktick db, unDoubleBacktick tbl)

/-! ## version -/

/-- The error of the `version` package (`errors.New("invalid version
format")`); the specification calls it `InvalidVersion`. -/
inductive VerErr where
  | invalidVersion
deriving DecidableEq, Repr

/-- Split a string at its first `-` as `strings.Index` does: the part
before, and the part after (empty when there is no dash). -/
def breakDash : Str → Str × Str
  | [] => ([], [])
  | c :: s =>
    if c = '-' then ([], s)
    else ((breakDash s).1.cons c, (breakDash s).2)

/-- `splitVersion`: the pre-dash part split on `.`, with the release
part appended. -/
def splitVersion (v : Str) : List Str :=
  let p := breakDash v
  splitOnChar '.' p.1 ++ [p.2]

/-- The patch alternatives of the validation pattern:
`[0-9][0-9]$|[0-9]$|[0-9][0-9]-.*$|[0-9]-.*$`. -/
def patchOk : Str → Bool
  | [] => false
  | d :: rest =>
    isDigitChar d &&
      (match rest with
       | [] => true
       | e :: rest2 =>
         if e = '-' then noNL rest2
         else isDigitChar e &&
           (match rest2 with
            | [] => true
            | f :: rest3 => if f = '-' then noNL rest3 else false))

/-- `version.Validate`: the language of
`^([58])\.([0-9])\.([0-9][0-9]$|[0-9]$|[0-9][0-9]-.*$|[0-9]-.*$)`. -/
def Validate : Str → Bool
  | m :: c1 :: n :: c2 :: rest =>
    (m = '5' || m = '8') && (c1 = '.') && isDigitChar n && (c2 = '.') &&
      patchOk rest
  | _ => false

/-- `version.Release`: `"-" + vParts[3]` after validation.  The source
indexes the parts unconditionally; validation guarantees four parts, so
the index is modelled with a default. -/
def Release (v : Str) : Except VerErr Str :=
  if Validate v then .ok ('-' :: (splitVersion v).getD 3 [])
  else .error .invalidVersion

/-- The normalization `fmt.Sprintf("%d%02d%02d", ...)` of the three
numeric parts (total helper; `Normalized` guards it with
validation). -/
def normalizedChars (v : Str) : Str :=
  let p := splitVersion v
  natDecimal (natOfChars (p.getD 0 [])) ++
    pad2 (natOfChars (p.getD 1 [])) ++ pad2 (natOfChars (p.getD 2 []))

/-- `version.Normalized`. -/
def Normalized (v : Str) : Except VerErr Str :=
  if Validate v then .ok (normalizedChars v) else .error .invalidVersion

/-- `version.Compare`: validate both, then compare the normalized
forms with the Go string order. -/
def Compare (v1 v2 : Str) : Except VerErr Int :=
  if !Validate v1 then .error .invalidVersion
  else if !Validate v2 then .error .invalidVersion
  else
    let n1 := normalizedChars v1
    let n2 := normalizedChars v2
    if goStrLt n1 n2 then .ok (-1)
    else if goStrLt n2 n1 then .ok 1
    else .ok 0

/-- The numeric value `major * 10000 + minor * 100 + patch` of a
version string, used to state what `Compare` decides. -/
def verValue (v : Str) : Nat :=
  let p := splitVersion v
  natOfChars (p.getD 0 []) * 10000 + natOfChars (p.getD 1 []) * 100 +
    natOfChars (p.getD 2 [])

/-- Sign of the comparison of two naturals, as an integer in
`{-1, 0, 1}`. -/
def ordSign (a b : Nat) : Int :=
  if a < b then -1 else if b < a then 1 else 0

/-! ## tableparser: data model

The Go structs of `tableparser`.  Names are kept, except that the
`prefix` field of `KeyColInfo` is rendered `prefixLen`.  `KeyInfo`
carries the `nullable` flag that the sort comparator reads
(`x.nullable`): the Go struct declares no such field and the key
builder never assigns it, which is modelled by an explicit boolean
field that `GetKeys` always sets to `false` (the Go zero value). -/

/-- One column of a key (`KeyColInfo`). -/
structure KeyColInfo where
  name : Str
  prefixLen : Nat
  colddl : Str
deriving DecidableEq, Repr

/-- One key of a table (`KeyInfo`). -/
structure KeyInfo where
  name : Str
  keyType : Str
  primary : Bool
  unique : Bool
  nullable : Bool
  cols : List (Str × KeyColInfo)
  keyddl : Str
deriving DecidableEq, Repr

/-- One column of a table (`ColInfo`). -/
structure ColInfo where
  name : Str
  pos : Nat
  dataType : Str
  definition : Str
  nullable : Bool
  generated : Bool
  numeric : Bool
  autoinc : Bool
deriving DecidableEq, Repr

/-- A parsed table (`TableInfo`). -/
structure TableInfo where
  name : Str
  cols : List (Str × ColInfo)
  keys : List (Str × KeyInfo)
  engine : Str
  charset : Str
  ddl : Str
deriving DecidableEq, Repr

/-- The string `"PRIMARY"`. -/
def primaryStr : Str := "PRIMARY".toList

/-- The string `"BTREE"`. -/
def btreeStr : Str := "BTREE".toList

/-! ## tableparser: extraction -/

/-- Result of `Getengine` and `Getcharset`: the extracted token, the
typed "not found" error of the source (`Could not determine ...`,
which the specification names `EngineNotFound` / `CharsetNotFound`),
or the out-of-range panic the source incurs on `matches[0][1]` when
the pattern does not match at all. -/
inductive ExtractRes where
  | ok (s : Str)
  | errNotFound
  | panicOutOfRange
deriving DecidableEq, Repr

/-- Return the first value a function extracts from a list. -/
def firstSome (f : α → Option β) : List α → Option β
  | [] => none
  | a :: rest =>
    match f a with
    | some b => some b
    | none => firstSome f rest

/-- Match one line against `^\) ENGINE\=([^ ]*) .*$`: the capture is
the maximal run of non-space characters after `) ENGINE=`, and a space
must follow it. -/
def matchEngineLine (line : Str) : Option Str :=
  if startsWith (") ENGINE=".toList) line then
    let after := line.drop 9
    let tok := after.takeWhile (fun c => c ≠ ' ')
    match after.drop tok.length with
    | ' ' :: _ => some tok
    | _ => none
  else none

/-- `tableparser.Getengine`: first line matching the engine pattern;
`matches[0][1]` panics when no line matches; an empty capture yields
the typed error. -/
def Getengine (ddl : Str) : ExtractRes :=
  match firstSome matchEngineLine (splitOnChar '\n' ddl) with
  | none => .panicOutOfRange
  | some tok => if tok.length < 1 then .errNotFound else .ok tok

/-- Match `DEFAULT CHARSET=([^\s]*) ` at the current position: the
capture is the maximal run of non-whitespace characters after the
literal, and a space character must follow it. -/
def matchCharsetAt (s : Str) : Option Str :=
  if startsWith ("DEFAULT CHARSET=".toList) s then
    let after := s.drop 16
    let tok := after.takeWhile (fun c => !isGoSpace c)
    match after.drop tok.length with
    | ' ' :: _ => some tok
    | _ => none
  else none

/-- Leftmost match of `matchCharsetAt` over all start positions. -/
def scanCharset : Str → Option Str
  | [] => matchCharsetAt []
  | c :: rest =>
    match matchCharsetAt (c :: rest) with
    | some tok => some tok
    | none => scanCharset rest

/-- `tableparser.Getcharset`: leftmost occurrence of the charset
pattern anywhere in the text; `matches[0][1]` panics when there is
none; an empty capture yields the typed error. -/
def Getcharset (ddl : Str) : ExtractRes :=
  match scanCharset ddl with
  | none => .panicOutOfRange
  | some tok => if tok.length < 1 then .errNotFound else .ok tok

/-- Case folding for the `(?i)` flag on ASCII letters. -/
def upperAscii (c : Char) : Char :=
  if 'a' ≤ c && c ≤ 'z' then Char.ofNat (c.toNat - 32) else c

/-- Case-insensitive prefix test. -/
def ciStartsWith : Str → Str → Bool
  | [], _ => true
  | _ :: _, [] => false
  | p :: ps, c :: cs => upperAscii p = upperAscii c && ciStartsWith ps cs

/-- Match `(?i)CREATE (?:TEMPORARY )?TABLE `​` at one position. -/
def matchQuotedCreateAt (s : Str) : Bool :=
  (ciStartsWith ("CREATE ".toList) s) &&
    (let t := s.drop 7
     let t := if ciStartsWith ("TEMPORARY ".toList) t then t.drop 10 else t
     ciStartsWith ("TABLE `".toList) t)

/-- `MatchString` of the quoting check: some position matches. -/
def hasQuotedCreate : Str → Bool
  | [] => matchQuotedCreateAt []
  | c :: rest => matchQuotedCreateAt (c :: rest) || hasQuotedCreate rest

/-- Match the table-name pattern at one position.  The source compiles
it from the double-quoted Go string
`"`CREATE (?:TEMPORARY )?TABLE \x60([^\x60]*)\x60`"`, whose outer
backticks are part of the pattern: a literal backtick must precede
`CREATE`, and two backticks must follow the name. -/
def matchCreateNameAt (s : Str) : Option Str :=
  match s with
  | '`' :: t =>
    if startsWith ("CREATE ".toList) t then
      let u := t.drop 7
      let u := if startsWith ("TEMPORARY ".toList) u then u.drop 10 else u
      if startsWith ("TABLE `".toList) u then
        let v := u.drop 7
        let nm := v.takeWhile (fun c => c ≠ '`')
        match v.drop nm.length with
        | '`' :: '`' :: _ => some nm
        | _ => none
      else none
    else none
  | _ => none

/-- Leftmost match of the (stray-backtick) table-name pattern. -/
def findCreateName : Str → Option Str
  | [] => matchCreateNameAt []
  | c :: rest =>
    match matchCreateNameAt (c :: rest) with
    | some nm => some nm
    | none => findCreateName rest

/-- Match one line against the column pattern
`^\s\s\x60([^\x60]*)\x60 ([^\s]*) (.*)$`; returns the column name, the
data type token and the remainder group. -/
def matchColumnLine (line : Str) : Option (Str × Str × Str) :=
  match line with
  | s1 :: s2 :: '`' :: t =>
    if isGoSpace s1 && isGoSpace s2 then
      let nm := t.takeWhile (fun c => c ≠ '`')
      match t.drop nm.length with
      | '`' :: ' ' :: u =>
        let dt := u.takeWhile (fun c => !isGoSpace c)
        match u.drop dt.length with
        | ' ' :: rest => some (nm, dt, rest)
        | _ => none
      | _ => none
    else none
  | _ => none

/-- Build the `ColInfo` of one matched column line, as the loop body
of `Parse` does.  `col[0]` is the whole line; the `generated` test of
the source reads `vi.definition`, a slip for `ci.definition`, modelled
as the line. -/
def mkColInfo (i : Nat) (line nm dt rest : Str) : ColInfo :=
  { name := nm
    pos := i + 1
    dataType := dt
    definition := line
    nullable := !containsSub line ("NOT NULL".toList)
    generated := containsSub line ("GENERATED ALWAYS AS".toList)
    numeric := containsSub dt ("int".toList) || containsSub dt ("float".toList) ||
      containsSub dt ("double".toList) || containsSub dt ("decimal".toList) ||
      containsSub dt ("year".toList)
    autoinc := containsSub rest ("AUTO_INCREMENT".toList) }

/-- The column map built by the loop of `Parse` over all matched
column lines in source order. -/
def buildCols (ddl : Str) : List (Str × ColInfo) :=
  let ms := (splitOnChar '\n' ddl).filterMap
    (fun l => (matchColumnLine l).map (fun p => (l, p)))
  (ms.enum.map fun p =>
      mkColInfo p.1 p.2.1 p.2.2.1 p.2.2.2.1 p.2.2.2.2).foldl
    (fun acc ci => mapSet acc ci.name ci) []

/-! ## tableparser: keys -/

/-- Result of `parseIndexColumns`: the column map, or the out-of-range
panic the source incurs on `matches[0]` when an element contains no
backtick. -/
inductive PICRes where
  | ok (m : List (Str × KeyColInfo))
  | panicOutOfRange
deriving DecidableEq, Repr

/-- First match of `(\x60[^\(]*)(?:\(([0-9]*)\))?` in one element:
group one is the first backtick with the following run of
non-parenthesis characters; group two is the parenthesised digit run
when present. -/
def firstBacktickMatch : Str → Option (Str × Str)
  | [] => none
  | '`' :: t =>
    let run := t.takeWhile (fun c => c ≠ '(')
    let g2 :=
      match t.drop run.length with
      | '(' :: u =>
        let ds := u.takeWhile (fun c => isDigitChar c)
        match u.drop ds.length with
        | ')' :: _ => ds
        | _ => []
      | _ => []
    some ('`' :: run, g2)
  | _ :: rest => firstBacktickMatch rest

/-- `tableparser.parseIndexColumns`: split the captured list on commas
and extract each column name (backticks stripped and un-doubled) and
optional numeric length. -/
def parseIndexColumns (cols : Str) : PICRes :=
  (splitOnChar ',' cols).foldl
    (fun acc value =>
      match acc with
      | .panicOutOfRange => .panicOutOfRange
      | .ok m =>
        match firstBacktickMatch value with
        | none => .panicOutOfRange
        | some g =>
          let nm := unDoubleBacktick (trimLeftChar '`' (trimRightChar '`' g.1))
          let p := if g.2.length > 0 then natOfChars g.2 else 0
          .ok (mapSet m nm ⟨nm, p, value⟩))
    (.ok [])

/-- Match one line against `^  PRIMARY KEY \((.*)\),*$`: after the
literal prefix, the greedy group runs to the last `)` that is followed
only by commas. -/
def matchPrimaryLine (line : Str) : Option Str :=
  if startsWith ("  PRIMARY KEY (".toList) line then
    let t := trimRightChar ',' (line.drop 15)
    match t.reverse with
    | ')' :: midrev => some midrev.reverse
    | _ => none
  else none

/-- Consume leading repetitions of `FULLTEXT|SPATIAL|UNIQUE`,
returning the last token consumed (the submatch of a starred group)
and the remainder; fuelled on the string length. -/
def eatModifiersAux : Nat → Str → Str → Str × Str
  | 0, s, last => (last, s)
  | fuel + 1, s, last =>
    if startsWith ("FULLTEXT".toList) s then
      eatModifiersAux fuel (s.drop 8) ("FULLTEXT".toList)
    else if startsWith ("SPATIAL".toList) s then
      eatModifiersAux fuel (s.drop 7) ("SPATIAL".toList)
    else if startsWith ("UNIQUE".toList) s then
      eatModifiersAux fuel (s.drop 6) ("UNIQUE".toList)
    else (last, s)

/-- Match one line against
`^  (FULLTEXT|SPATIAL|UNIQUE)*\s*KEY \x60([^\x60]*)\x60 \((.*)\),*$`;
returns the modifier capture, the key name and the column list. -/
def matchSecondaryLine (line : Str) : Option (Str × Str × Str) :=
  match line with
  | ' ' :: ' ' :: t =>
    let m := eatModifiersAux (t.length + 1) t []
    let t1 := m.2.dropWhile (fun c => isGoSpace c)
    if startsWith ("KEY `".toList) t1 then
      let u := t1.drop 5
      let nm := u.takeWhile (fun c => c ≠ '`')
      match u.drop nm.length with
      | '`' :: ' ' :: '(' :: w =>
        let x := trimRightChar ',' w
        match x.reverse with
        | ')' :: midrev => some (m.1, nm, midrev.reverse)
        | _ => none
      | _ => none
    else none
  | _ => none

/-- Result of `GetKeys`: the key map, or the out-of-range panic the
source incurs on `matches[0]` when no primary-key line matches. -/
inductive GKRes where
  | ok (keys : List (Str × KeyInfo))
  | panicOutOfRange
deriving DecidableEq, Repr

/-- The `KeyInfo` of one matched secondary-key line.  The `nullable`
flag is the Go zero value: the source never assigns it. -/
def mkSecondaryKey (line modcap nm : Str) (m : List (Str × KeyColInfo)) :
    KeyInfo :=
  { name := nm
    keyType :=
      if containsSub modcap ("SPATIAL".toList) then "RTREE".toList
      else if containsSub modcap ("FULLTEXT".toList) then "TEXT".toList
      else btreeStr
    primary := false
    unique := containsSub modcap ("UNIQUE".toList)
    nullable := false
    cols := m
    keyddl := line }

/-- `tableparser.GetKeys`: the first primary-key line (panicking on
`matches[0]` when there is none, since the guard indexes before
checking), then every secondary-key line in source order. -/
def GetKeys (ddl : Str) : GKRes :=
  let lines := splitOnChar '\n' ddl
  match firstSome (fun l => (matchPrimaryLine l).map fun c => (l, c)) lines with
  | none => .panicOutOfRange
  | some pk =>
    match parseIndexColumns pk.2 with
    | .panicOutOfRange => .panicOutOfRange
    | .ok pcols =>
      let ki : KeyInfo :=
        { name := primaryStr, keyType := btreeStr, primary := true,
          unique := true, nullable := false, cols := pcols, keyddl := pk.1 }
      let m0 := mapSet [] primaryStr ki
      (lines.filterMap (fun l => (matchSecondaryLine l).map fun t => (l, t))).foldl
        (fun acc s =>
          match acc with
          | .panicOutOfRange => GKRes.panicOutOfRange
          | .ok m =>
            match parseIndexColumns s.2.2.2 with
            | .panicOutOfRange => GKRes.panicOutOfRange
            | .ok kcols =>
              let ki := mkSecondaryKey s.1 s.2.1 s.2.2.1 kcols
              GKRes.ok (mapSet m ki.name ki))
        (GKRes.ok m0)

/-! ## tableparser: Parse -/

/-- Result of `Parse`: a table, one of the typed errors of the source
(empty input, unquoted definition, empty table name, engine or charset
not determined), or a propagated out-of-range panic. -/
inductive ParseRes where
  | ok (ti : TableInfo)
  | errEmptyDef
  | errNoQuoting
  | errNoTableName
  | errEngineNotFound
  | errCharsetNotFound
  | panicOutOfRange
deriving DecidableEq, Repr

/-- `tableparser.Parse`: sanitize, check quoting, extract the name
(the stray-backtick pattern; `matches[0][1]` panics when it does not
match), engine, charset, columns and keys. -/
def Parse (ddl : Str) : ParseRes :=
  if ddl.length < 1 then .errEmptyDef
  else if !hasQuotedCreate ddl then .errNoQuoting
  else
    match findCreateName ddl with
    | none => .panicOutOfRange
    | some nm =>
      if nm.length < 1 then .errNoTableName
      else
        match Getengine ddl with
        | .panicOutOfRange => .panicOutOfRange
        | .errNotFound => .errEngineNotFound
        | .ok eng =>
          match Getcharset ddl with
          | .panicOutOfRange => .panicOutOfRange
          | .errNotFound => .errCharsetNotFound
          | .ok cs =>
            match GetKeys ddl with
            | .panicOutOfRange => .panicOutOfRange
            | .ok ks =>
              .ok { name := nm, cols := buildCols ddl, keys := ks,
                    engine := eng, charset := cs, ddl := ddl }

/-! ## tableparser: index selector -/

/-- The comparator of `Sortindexes`, line for line from the source:
the primary name wins, then `unique`; the third rule reads the keys'
`nullable` flag but tests `y.unique` in its first branch; then more
columns win. -/
def sortFunc (x y : KeyInfo) : Int :=
  if x.name = primaryStr then -1
  else if y.name = primaryStr then 1
  else if x.unique && !y.unique then -1
  else if y.unique && !x.unique then 1
  else if !x.nullable && y.unique then -1
  else if !y.nullable && x.nullable then 1
  else if x.cols.length > y.cols.length then -1
  else if y.cols.length > x.cols.length then 1
  else 0

/-- `TableInfo.Sortindexes`: keep the BTREE keys and sort them stably
with `sortFunc`. -/
def TableInfo.Sortindexes (tbl : TableInfo) : List KeyInfo :=
  sortedStableFunc sortFunc
    ((tbl.keys.map Prod.snd).filter (fun k => k.keyType = btreeStr))

/-- Outcome of `Findbestindex`: the chosen name; the fatal
`IndexNotFound` exit of the source (`os.Exit(1)` after printing the
missing name); the out-of-range panic of `idxs[0]` on an empty sorted
sequence.  `noUsableIndex` is the failure the specification names for
that last situation; the code never produces it and it is declared
only so that its absence can be stated. -/
inductive FbiOutcome where
  | ok (best : Str)
  | exitIndexNotFound (idx : Str)
  | panicOutOfRange
  | noUsableIndex
deriving DecidableEq, Repr

/-- `TableInfo.Findbestindex`: honour a non-empty preferred name when
present, exit when it is absent; otherwise take the first sorted
index, indexing the possibly empty sequence. -/
def TableInfo.Findbestindex (tbl : TableInfo) (idx : Str) : FbiOutcome :=
  if idx.length > 0 then
    if (List.lookup idx tbl.keys).isSome then .ok idx
    else .exitIndexNotFound idx
  else
    match tbl.Sortindexes with
    | [] => .panicOutOfRange
    | k :: _ => .ok k.name

/-! ## Specification-side helpers -/

/-- A key has a nullable member column in a table: some member column
name maps to a column whose `nullable` flag is set.  This is the
notion the specification's rule 3 ranks by. -/
def keyHasNullableMember (tbl : TableInfo) (k : KeyInfo) : Bool :=
  k.cols.any (fun p =>
    ((List.lookup p.1 tbl.cols).map ColInfo.nullable).getD false)

/-! ## Concrete inputs and tables used by witnesses and
counterexamples -/

/-- The scenario DDL of the specification. -/
def c1ddl : Str :=
  ("CREATE TABLE `t` (\n  `id` int NOT NULL,\n  PRIMARY KEY (`id`)\n) ENGINE=InnoDB DEFAULT CHARSET=utf8mb4").toList

/-- A well-formed quoted DDL whose trailer lacks the engine
fragment. -/
def noEngineDdl : Str :=
  ("CREATE TABLE `t` (\n  `id` int NOT NULL\n) DEFAULT CHARSET=utf8mb4 COLLATE=x").toList

/-- A well-formed quoted DDL whose trailer lacks the charset
fragment. -/
def noCharsetDdl : Str :=
  ("CREATE TABLE `t` (\n  `id` int NOT NULL\n) ENGINE=InnoDB ROW_FORMAT=DYNAMIC").toList

/-- A well-formed quoted DDL with a secondary key but no primary-key
line. -/
def noPkDdl : Str :=
  ("CREATE TABLE `t` (\n  `id` int NOT NULL,\n  KEY `k` (`id`)\n) ENGINE=InnoDB DEFAULT CHARSET=utf8mb4 COLLATE=x").toList

/-- A nullable `id` column. -/
def colIdNullable : ColInfo :=
  { name := "id".toList, pos := 1, dataType := "int".toList,
    definition := ("  `id` int DEFAULT NULL,").toList,
    nullable := true, generated := false, numeric := true, autoinc := false }

/-- A non-nullable `v` column. -/
def colVNotNull : ColInfo :=
  { name := "v".toList, pos := 2, dataType := "int".toList,
    definition := ("  `v` int NOT NULL,").toList,
    nullable := false, generated := false, numeric := true, autoinc := false }

/-- A one-column member list over column `id`. -/
def kcId : List (Str × KeyColInfo) :=
  [("id".toList, { name := "id".toList, prefixLen := 0, colddl := "`id`".toList })]

/-- A one-column member list over column `v`. -/
def kcV : List (Str × KeyColInfo) :=
  [("v".toList, { name := "v".toList, prefixLen := 0, colddl := "`v`".toList })]

/-- A non-unique BTREE key `a` over the nullable column `id`, with the
`nullable` flag at its Go zero value as `GetKeys` builds keys. -/
def keyA : KeyInfo :=
  { name := "a".toList, keyType := btreeStr, primary := false,
    unique := false, nullable := false, cols := kcId,
    keyddl := ("  KEY `a` (`id`)").toList }

/-- A non-unique BTREE key `b` over the non-nullable column `v`. -/
def keyB : KeyInfo :=
  { name := "b".toList, keyType := btreeStr, primary := false,
    unique := false, nullable := false, cols := kcV,
    keyddl := ("  KEY `b` (`v`)").toList }

/-- The primary key over `v`. -/
def keyPk : KeyInfo :=
  { name := primaryStr, keyType := btreeStr, primary := true,
    unique := true, nullable := false, cols := kcV,
    keyddl := ("  PRIMARY KEY (`v`)").toList }

/-- A FULLTEXT key, the only key of the table without BTREE keys. -/
def keyFt : KeyInfo :=
  { name := "ft".toList, keyType := "TEXT".toList, primary := false,
    unique := false, nullable := false, cols := kcV,
    keyddl := ("  FULLTEXT KEY `ft` (`v`)").toList }

/-- The table used to refute the nullability rule: two non-unique
BTREE keys tying on every implemented criterion, the key over the
nullable column listed first. -/
def tblNullTie : TableInfo :=
  { name := "t".toList,
    cols := [("id".toList, colIdNullable), ("v".toList, colVNotNull)],
    keys := [("a".toList, keyA), ("b".toList, keyB)],
    engine := "InnoDB".toList, charset := "utf8mb4".toList, ddl := [] }

/-- A table whose key mapping holds a primary key listed last. -/
def tblWithPk : TableInfo :=
  { name := "t".toList,
    cols := [("id".toList, colIdNullable), ("v".toList, colVNotNull)],
    keys := [("a".toList, keyA), ("PRIMARY".toList, keyPk)],
    engine := "InnoDB".toList, charset := "utf8mb4".toList, ddl := [] }

/-- A table with no BTREE key at all. -/
def tblNoBtree : TableInfo :=
  { name := "t".toList,
    cols := [("v".toList, colVNotNull)],
    keys := [("ft".toList, keyFt)],
    engine := "InnoDB".toList, charset := "utf8mb4".toList, ddl := [] }

/-- Rank used to state that the primary key sorts first: zero for the
key named `PRIMARY`, one otherwise. -/
def primRank (k : KeyInfo) : Nat :=
  if k.name = primaryStr then 0 else 1

/-! # Theorems

General lemmas about the helpers, then one theorem per claim with its
witness or counterexample. -/

theorem mem_goInsert (cmp : α → α → Int) (x a : α) (l : List α) :
    a ∈ goInsert cmp x l ↔ a = x ∨ a ∈ l := by
  induction l with
  | nil => simp [goInsert]
  | cons y rest ih =>
    by_cases h : cmp x y < 0 <;> · simp [goInsert, h, ih]; try tauto

theorem mem_goSortRev (cmp : α → α → Int) (a : α) :
    ∀ (l acc : List α), a ∈ goSortRev cmp acc l ↔ a ∈ acc ∨ a ∈ l := by
  intro l
  induction l with
  | nil => simp [goSortRev]
  | cons x xs ih =>
    intro acc
    simp [goSortRev, ih, mem_goInsert]
    tauto

theorem mem_sortedStableFunc (cmp : α → α → Int) (a : α) (l : List α) :
    a ∈ sortedStableFunc cmp l ↔ a ∈ l := by
  simp [sortedStableFunc, mem_goSortRev]

theorem pairwise_goInsert (cmp : α → α → Int) (r : α → Nat)
    (H1 : ∀ x y, cmp x y < 0 → r x ≤ r y)
    (H2 : ∀ x y, ¬ cmp x y < 0 → r y ≤ r x)
    (x : α) (acc : List α)
    (hp : List.Pairwise (fun a b => r b ≤ r a) acc) :
    List.Pairwise (fun a b => r b ≤ r a) (goInsert cmp x acc) := by
  induction acc with
  | nil => simp [goInsert]
  | cons y rest ih =>
    rcases List.pairwise_cons.mp hp with ⟨hy, hrest⟩
    by_cases h : cmp x y < 0
    · simp only [goInsert, if_pos h]
      refine List.pairwise_cons.mpr ⟨?_, ih hrest⟩
      intro z hz
      rcases (mem_goInsert cmp x z rest).mp hz with rfl | hzr
      · exact H1 _ _ h
      · exact hy z hzr
    · simp only [goInsert, if_neg h]
      refine List.pairwise_cons.mpr ⟨?_, hp⟩
      intro z hz
      rcases List.mem_cons.mp hz with rfl | hzr
      · exact H2 _ _ h
      · exact le_trans (hy z hzr) (H2 _ _ h)

theorem pairwise_goSortRev (cmp : α → α → Int) (r : α → Nat)
    (H1 : ∀ x y, cmp x y < 0 → r x ≤ r y)
    (H2 : ∀ x y, ¬ cmp x y < 0 → r y ≤ r x) :
    ∀ (l acc : List α), List.Pairwise (fun a b => r b ≤ r a) acc →
      List.Pairwise (fun a b => r b ≤ r a) (goSortRev cmp acc l) := by
  intro l
  induction l with
  | nil => intro acc h; simpa [goSortRev] using h
  | cons x xs ih =>
    intro acc h
    exact ih _ (pairwise_goInsert cmp r H1 H2 x acc h)

theorem pairwise_sortedStableFunc (cmp : α → α → Int) (r : α → Nat)
    (H1 : ∀ x y, cmp x y < 0 → r x ≤ r y)
    (H2 : ∀ x y, ¬ cmp x y < 0 → r y ≤ r x) (l : List α) :
    List.Pairwise (fun a b => r a ≤ r b) (sortedStableFunc cmp l) := by
  have h := pairwise_goSortRev cmp r H1 H2 l [] (List.Pairwise.nil)
  simpa [sortedStableFunc, List.pairwise_reverse] using h

theorem sortFunc_primRank_left (x y : KeyInfo) (h : sortFunc x y < 0) :
    primRank x ≤ primRank y := by
  unfold sortFunc at h
  split_ifs at h with h1 h2 h3 h4 h5 h6 h7 h8 <;> simp_all [primRank]

theorem sortFunc_primRank_right (x y : KeyInfo) (h : ¬ sortFunc x y < 0) :
    primRank y ≤ primRank x := by
  unfold sortFunc at h
  split_ifs at h with h1 h2 h3 h4 h5 h6 h7 h8 <;> simp_all [primRank]

/-- C2: for every built table, `Sortindexes` returns only BTREE-kind
keys, and whenever the table's key mapping holds a BTREE key named
`PRIMARY` — at any position — the first element of the returned
sequence is named `PRIMARY`. -/
theorem sortindexes_btree_and_primary_first (tbl : TableInfo) :
    (∀ k ∈ tbl.Sortindexes, k.keyType = btreeStr) ∧
    ((∃ p ∈ tbl.keys.map Prod.snd, p.keyType = btreeStr ∧ p.name = primaryStr) →
      ∃ k rest, tbl.Sortindexes = k :: rest ∧ k.name = primaryStr) := by
  constructor
  · intro k hk
    have hmem := (mem_sortedStableFunc sortFunc k _).mp hk
    have := List.mem_filter.mp hmem
    simpa using this.2
  · rintro ⟨p, hp, hbt, hnm⟩
    have hpf : p ∈ (tbl.keys.map Prod.snd).filter
        (fun k => k.keyType = btreeStr) := by
      refine List.mem_filter.mpr ⟨hp, ?_⟩
      simpa using hbt
    have hmem : p ∈ tbl.Sortindexes :=
      (mem_sortedStableFunc sortFunc p _).mpr hpf
    have hpw : List.Pairwise (fun a b => primRank a ≤ primRank b)
        tbl.Sortindexes :=
      pairwise_sortedStableFunc sortFunc primRank sortFunc_primRank_left
        sortFunc_primRank_right _
    rcases hs : tbl.Sortindexes with _ | ⟨k, rest⟩
    · rw [hs] at hmem; cases hmem
    · rw [hs] at hmem hpw
      refine ⟨k, rest, rfl, ?_⟩
      rcases List.pairwise_cons.mp hpw with ⟨hk, _⟩
      have hrank : primRank k = 0 := by
        rcases List.mem_cons.mp hmem with rfl | hpr
        · simp [primRank, hnm]
        · have := hk p hpr
          have hp0 : primRank p = 0 := by simp [primRank, hnm]
          omega
      by_contra hne
      simp [primRank, hne] at hrank

/-- Witness for C2 at a concrete table whose primary key is listed
last in the key mapping. -/
theorem sortindexes_btree_and_primary_first_witness :
    ∃ k rest, tblWithPk.Sortindexes = k :: rest ∧ k.name = primaryStr :=
  (sortindexes_btree_and_primary_first tblWithPk).2 (by decide)

/-- C3 counterexample: in `tblNullTie` the two BTREE keys are
non-primary, tie on `unique` and on every other implemented rule;
`keyA`, whose only member column is nullable, still precedes `keyB`,
whose only member column is not nullable. -/
theorem sortindexes_nullable_counterexample :
    tblNullTie.Sortindexes = [keyA, keyB] ∧
    keyHasNullableMember tblNullTie keyA = true ∧
    keyHasNullableMember tblNullTie keyB = false ∧
    keyA.unique = keyB.unique ∧
    keyA.name ≠ primaryStr ∧ keyB.name ≠ primaryStr := by decide

/-- C3 as amended: column nullability cannot influence the order at
all — `Sortindexes` reads nothing but the keys, and the `nullable`
flag its comparator consults is never set by the key builder.  For
keys as built (flag unset): among non-primary keys, when both are
unique the comparator returns `-1` outright (skipping the later
rules), and when both are non-unique with equally many member columns
it ties, leaving input order. -/
theorem sortindexes_ignores_column_nullability :
    (∀ (tbl : TableInfo) (cols2 : List (Str × ColInfo)),
      TableInfo.Sortindexes { tbl with cols := cols2 } = tbl.Sortindexes) ∧
    (∀ x y : KeyInfo, x.name ≠ primaryStr → y.name ≠ primaryStr →
      x.nullable = false → y.nullable = false →
      (x.unique = true → y.unique = true → sortFunc x y = -1) ∧
      (x.unique = false → y.unique = false → x.cols.length = y.cols.length →
        sortFunc x y = 0)) := by
  constructor
  · intro tbl cols2
    rfl
  · intro x y hx hy hxn hyn
    constructor
    · intro hxu hyu
      simp [sortFunc, hx, hy, hxu, hyu, hxn]
    · intro hxu hyu hlen
      simp [sortFunc, hx, hy, hxu, hyu, hxn, hyn, hlen]

/-- Witness for the amended C3. -/
theorem sortindexes_ignores_column_nullability_witness :
    TableInfo.Sortindexes { tblNullTie with cols := [] } =
      tblNullTie.Sortindexes ∧
    sortFunc keyA keyB = 0 := by
  refine ⟨sortindexes_ignores_column_nullability.1 tblNullTie [], ?_⟩
  have h := (sortindexes_ignores_column_nullability.2 keyA keyB
    (by decide) (by decide) (by decide) (by decide)).2
  exact h (by decide) (by decide) (by decide)

/-- C4: a non-empty preferred index name absent from the key mapping
makes `Findbestindex` fail with the fatal index-not-found exit naming
the missing key (never a fallback to another key), whatever other keys
the table has. -/
theorem findbestindex_missing_name (tbl : TableInfo) (idx : Str)
    (hne : idx ≠ []) (habs : List.lookup idx tbl.keys = none) :
    tbl.Findbestindex idx = FbiOutcome.exitIndexNotFound idx := by
  have hlen : 0 < idx.length := List.length_pos.mpr hne
  simp [TableInfo.Findbestindex, hlen, habs]

/-- Witness for C4 on a table that does have usable keys. -/
theorem findbestindex_missing_name_witness :
    tblWithPk.Findbestindex ("missing".toList) =
      FbiOutcome.exitIndexNotFound ("missing".toList) :=
  findbestindex_missing_name tblWithPk ("missing".toList) (by decide) (by decide)

/-- C5 counterexample: on a table with no BTREE key, `Findbestindex`
with an empty preferred name does not fail with the specification's
`NoUsableIndex` error — it indexes the empty sorted sequence, an
out-of-range crash. -/
theorem findbestindex_no_btree_counterexample :
    tblNoBtree.Findbestindex [] = FbiOutcome.panicOutOfRange ∧
    tblNoBtree.Findbestindex [] ≠ FbiOutcome.noUsableIndex := by decide

/-- C5 as amended: with an empty preferred name, `Findbestindex`
returns the name of the first element of `Sortindexes` when the table
has a BTREE key, and performs an out-of-range access (a crash, not a
`NoUsableIndex` error) when it has none. -/
theorem findbestindex_empty_name (tbl : TableInfo) :
    ((∀ k ∈ tbl.keys.map Prod.snd, ¬ k.keyType = btreeStr) →
      tbl.Findbestindex [] = FbiOutcome.panicOutOfRange) ∧
    (∀ k rest, tbl.Sortindexes = k :: rest →
      tbl.Findbestindex [] = FbiOutcome.ok k.name) := by
  constructor
  · intro hall
    have hfil : (tbl.keys.map Prod.snd).filter
        (fun k => k.keyType = btreeStr) = [] := by
      rw [List.filter_eq_nil_iff]
      intro k hk
      simpa using hall k hk
    have hs : tbl.Sortindexes = [] := by
      simp [TableInfo.Sortindexes, hfil, sortedStableFunc, goSortRev]
    simp [TableInfo.Findbestindex, hs]
  · intro k rest hs
    simp [TableInfo.Findbestindex, hs]

/-- Witness for the amended C5: the no-BTREE table crashes, a table
with keys returns the primary key's name. -/
theorem findbestindex_empty_name_witness :
    tblNoBtree.Findbestindex [] = FbiOutcome.panicOutOfRange ∧
    tblWithPk.Findbestindex [] = FbiOutcome.ok primaryStr := by
  constructor
  · exact (findbestindex_empty_name tblNoBtree).1 (by decide)
  · exact (findbestindex_empty_name tblWithPk).2 keyPk [keyA] (by decide)

/-- C1: the scenario DDL does not parse into a table at all: the
table-name pattern of `Parse` (compiled with stray surrounding
backticks) matches nowhere, so `matches[0][1]` is an out-of-range
access.  Engine extraction alone would succeed; charset extraction
alone would also crash, because its pattern requires a space after
the charset token and the DDL ends right at `utf8mb4`. -/
theorem parse_scenario_ddl_panics :
    Parse c1ddl = ParseRes.panicOutOfRange ∧
    Getengine c1ddl = ExtractRes.ok ("InnoDB".toList) ∧
    Getcharset c1ddl = ExtractRes.panicOutOfRange := by decide

/-- C6: on DDL whose trailer lacks the engine fragment, `Getengine`
does not return its typed error — `matches[0][1]` on the empty match
set is an out-of-range access; likewise `Getcharset` when the charset
fragment is absent. -/
theorem getengine_getcharset_absent_panic :
    Getengine noEngineDdl = ExtractRes.panicOutOfRange ∧
    Getcharset noCharsetDdl = ExtractRes.panicOutOfRange := by decide

/-- C10: on well-formed quoted DDL with no primary-key line, `GetKeys`
does not return a mapping without a `PRIMARY` entry — the guard
indexes `matches[0]` before checking, an out-of-range access on the
empty match set. -/
theorem getkeys_no_primary_panics :
    GetKeys noPkDdl = GKRes.panicOutOfRange := by decide

theorem doubleBacktick_of_free (l : Str) (h : '`' ∉ l) :
    doubleBacktick l = l := by
  induction l with
  | nil => rfl
  | cons c cs ih =>
    have hc : c ≠ '`' := fun hc => h (hc ▸ List.mem_cons_self c cs)
    have hcs : '`' ∉ cs := fun hm => h (List.mem_cons_of_mem c hm)
    simp [doubleBacktick, hc, ih hcs]

theorem unDoubleBacktick_of_free (l : Str) (h : '`' ∉ l) :
    unDoubleBacktick l = l := by
  induction l using unDoubleBacktick.induct with
  | case1 => rfl
  | case2 c => rfl
  | case3 c d rest hcd ih =>
    exfalso
    rcases Bool.and_eq_true _ _ |>.mp hcd with ⟨hc, _⟩
    exact h (by simp [of_decide_eq_true hc])
  | case4 c d rest hcd ih =>
    have hrest : '`' ∉ d :: rest := fun hm => h (List.mem_cons_of_mem c hm)
    simp [unDoubleBacktick, hcd, ih hrest]

theorem trimLeftChar_of_free (c : Char) (l : Str) (h : c ∉ l) :
    trimLeftChar c l = l := by
  cases l with
  | nil => rfl
  | cons x xs =>
    have hx : x ≠ c := fun hx => h (hx ▸ List.mem_cons_self x xs)
    simp [trimLeftChar, hx]

theorem trimRightChar_append_ne (c d : Char) (xs : Str) (h : d ≠ c) :
    trimRightChar c (xs ++ [d]) = xs ++ [d] := by
  simp [trimRightChar, trimLeftChar, h]

theorem trimRightChar_append_eq (c : Char) (xs : Str) :
    trimRightChar c (xs ++ [c]) = trimRightChar c xs := by
  simp [trimRightChar, trimLeftChar]

theorem splitOnChar_of_free (c : Char) (xs : Str) (h : c ∉ xs) :
    splitOnChar c xs = [xs] := by
  induction xs with
  | nil => rfl
  | cons x rest ih =>
    have hx : x ≠ c := fun hx => h (hx ▸ List.mem_cons_self x rest)
    have hr : c ∉ rest := fun hm => h (List.mem_cons_of_mem x hm)
    simp [splitOnChar, hx, ih hr]

theorem splitOnChar_append (c : Char) (xs ys : Str) (h : c ∉ xs) :
    splitOnChar c (xs ++ c :: ys) = xs :: splitOnChar c ys := by
  induction xs with
  | nil => simp [splitOnChar]
  | cons x rest ih =>
    have hx : x ≠ c := fun hx => h (hx ▸ List.mem_cons_self x rest)
    have hr : c ∉ rest := fun hm => h (List.mem_cons_of_mem x hm)
    have hih := ih hr
    simp only [List.cons_append, splitOnChar, if_neg hx]
    rw [show rest.append (c :: ys) = rest ++ c :: ys from rfl, hih]

theorem unquote_one (x : Str) (h : '`' ∉ x) :
    unDoubleBacktick (trimLeftChar '`' (trimRightChar '`' ('`' :: (x ++ ['`'])))) = x := by
  have h1 : trimRightChar '`' ('`' :: (x ++ ['`'])) = trimRightChar '`' ('`' :: x) := by
    have : '`' :: (x ++ ['`']) = ('`' :: x) ++ ['`'] := by simp
    rw [this, trimRightChar_append_eq]
  rcases List.eq_nil_or_concat x with rfl | ⟨xs, d, hx⟩
  · simp [h1, trimRightChar, trimLeftChar, unDoubleBacktick]
  · rw [List.concat_eq_append] at hx
    subst hx
    have hd : d ≠ '`' := by
      intro hd
      exact h (by simp [hd])
    have h2 : trimRightChar '`' ('`' :: (xs ++ [d])) = '`' :: (xs ++ [d]) := by
      have : '`' :: (xs ++ [d]) = ('`' :: xs) ++ [d] := by simp
      rw [this, trimRightChar_append_ne _ _ _ hd]
    rw [h1, h2]
    have h3 : trimLeftChar '`' ('`' :: (xs ++ [d])) = trimLeftChar '`' (xs ++ [d]) := by
      simp [trimLeftChar]
    rw [h3, trimLeftChar_of_free _ _ h, unDoubleBacktick_of_free _ h]

/-- C7 counterexample: the identifier `x.y` contains no quote
character, yet the round trip through `Backtick` and `Splitunbacktick`
loses it: the unquoting splits on every dot. -/
theorem quote_roundtrip_counterexample :
    Splitunbacktick (Backtick ["x.y".toList, "b".toList]) [] ≠
      ("x.y".toList, "b".toList) ∧
    Splitunbacktick (Backtick ["x.y".toList, "b".toList]) [] =
      ([], "x".toList) := by decide

/-- C7 as amended: for identifiers containing neither the quote
character nor a dot, unquoting the quoted form round-trips. -/
theorem quote_roundtrip (a b : Str) (ha : '`' ∉ a) (had : '.' ∉ a)
    (hb : '`' ∉ b) (hbd : '.' ∉ b) :
    Splitunbacktick (Backtick [a, b]) [] = (a, b) := by
  have hq : Backtick [a, b] =
      ('`' :: (a ++ ['`'])) ++ '.' :: ('`' :: (b ++ ['`'])) := by
    simp only [Backtick, List.foldl_cons, List.foldl_nil, List.nil_append,
      doubleBacktick_of_free a ha, doubleBacktick_of_free b hb]
    have hshape : ('`' :: (a ++ ['`', '.'])) ++ '`' :: (b ++ ['`', '.']) =
        (('`' :: (a ++ ['`'])) ++ '.' :: ('`' :: (b ++ ['`']))) ++ ['.'] := by
      simp
    rw [hshape, trimRightChar_append_eq]
    have hshape2 : ('`' :: (a ++ ['`'])) ++ '.' :: ('`' :: (b ++ ['`'])) =
        (('`' :: (a ++ ['`'])) ++ '.' :: ('`' :: b)) ++ ['`'] := by
      simp
    rw [hshape2, trimRightChar_append_ne _ _ _ (by decide)]
  have hqa : '.' ∉ '`' :: (a ++ ['`']) := by
    intro hm
    rcases List.mem_cons.mp hm with hh | hm2
    · cases hh
    · rcases List.mem_append.mp hm2 with hma | hmq
      · exact had hma
      · simp at hmq
  have hqb : '.' ∉ '`' :: (b ++ ['`']) := by
    intro hm
    rcases List.mem_cons.mp hm with hh | hm2
    · cases hh
    · rcases List.mem_append.mp hm2 with hmb | hmq
      · exact hbd hmb
      · simp at hmq
  have hsplit : splitOnChar '.' (Backtick [a, b]) =
      ['`' :: (a ++ ['`']), '`' :: (b ++ ['`'])] := by
    rw [hq, splitOnChar_append _ _ _ hqa, splitOnChar_of_free _ _ hqb]
  simp [Splitunbacktick, hsplit, unquote_one a ha, unquote_one b hb]

/-- Witness for the amended C7. -/
theorem quote_roundtrip_witness :
    Splitunbacktick (Backtick ["ab".toList, "c".toList]) [] =
      ("ab".toList, "c".toList) :=
  quote_roundtrip ("ab".toList) ("c".toList) (by decide) (by decide)
    (by decide) (by decide)

theorem digit_facts (c : Char) (h : isDigitChar c = true) :
    48 ≤ c.toNat ∧ c.toNat ≤ 57 ∧ c ≠ '-' ∧ c ≠ '.' ∧ c ≠ '\n' := by
  simp only [isDigitChar, List.mem_cons, List.not_mem_nil, or_false,
    decide_eq_true_eq] at h
  rcases h with rfl | rfl | rfl | rfl | rfl | rfl | rfl | rfl | rfl | rfl <;>
    exact ⟨by decide, by decide, by decide, by decide, by decide⟩

theorem digitChar_of_digit (c : Char) (h : isDigitChar c = true) :
    digitChar (c.toNat - 48) = c := by
  simp only [isDigitChar, List.mem_cons, List.not_mem_nil, or_false,
    decide_eq_true_eq] at h
  rcases h with rfl | rfl | rfl | rfl | rfl | rfl | rfl | rfl | rfl | rfl <;>
    decide

theorem digit_cmp (a b : Char) (ha : isDigitChar a = true)
    (hb : isDigitChar b = true) :
    (a < b ↔ a.toNat < b.toNat) ∧ (a = b ↔ a.toNat = b.toNat) := by
  simp only [isDigitChar, List.mem_cons, List.not_mem_nil, or_false,
    decide_eq_true_eq] at ha hb
  rcases ha with rfl | rfl | rfl | rfl | rfl | rfl | rfl | rfl | rfl | rfl <;>
    rcases hb with rfl | rfl | rfl | rfl | rfl | rfl | rfl | rfl | rfl | rfl <;>
    exact ⟨by decide, by decide⟩

theorem natOfChars_acc (s : Str) :
    ∀ a : Nat, s.foldl (fun x c => x * 10 + (c.toNat - 48)) a =
      a * 10 ^ s.length + natOfChars s := by
  induction s with
  | nil => intro a; simp [natOfChars]
  | cons c cs ih =>
    intro a
    have h1 := ih (a * 10 + (c.toNat - 48))
    have h2 := ih (c.toNat - 48)
    simp only [List.foldl_cons] at *
    rw [h1]
    have hnc : natOfChars (c :: cs) =
        (c.toNat - 48) * 10 ^ cs.length + natOfChars cs := by
      simpa [natOfChars, Nat.zero_mul, Nat.zero_add] using h2
    rw [hnc]
    simp [List.length_cons, pow_succ]
    ring

theorem natOfChars_cons (c : Char) (cs : Str) :
    natOfChars (c :: cs) = (c.toNat - 48) * 10 ^ cs.length + natOfChars cs := by
  have := natOfChars_acc cs (c.toNat - 48)
  simpa [natOfChars] using this

theorem natOfChars_lt_pow (s : Str) (h : ∀ c ∈ s, isDigitChar c = true) :
    natOfChars s < 10 ^ s.length := by
  induction s with
  | nil => simp [natOfChars]
  | cons c cs ih =>
    have hc := digit_facts c (h c (List.mem_cons_self c cs))
    have hcs := ih (fun x hx => h x (List.mem_cons_of_mem c hx))
    rw [natOfChars_cons]
    have hv : c.toNat - 48 ≤ 9 := by omega
    calc (c.toNat - 48) * 10 ^ cs.length + natOfChars cs
        < (c.toNat - 48) * 10 ^ cs.length + 10 ^ cs.length := by omega
      _ = (c.toNat - 48 + 1) * 10 ^ cs.length := by ring
      _ ≤ 10 * 10 ^ cs.length := Nat.mul_le_mul_right _ (by omega)
      _ = 10 ^ (cs.length + 1) := by ring
      _ = 10 ^ (c :: cs).length := by simp

theorem goStrLt_iff_val : ∀ xs ys : Str, xs.length = ys.length →
    (∀ c ∈ xs, isDigitChar c = true) → (∀ c ∈ ys, isDigitChar c = true) →
    (goStrLt xs ys = true ↔ natOfChars xs < natOfChars ys) := by
  intro xs
  induction xs with
  | nil =>
    intro ys hlen _ _
    have : ys = [] := List.length_eq_zero.mp hlen.symm
    subst this
    simp [goStrLt]
  | cons a as ih =>
    intro ys hlen hx hy
    cases ys with
    | nil => simp at hlen
    | cons b bs =>
      have hlen2 : as.length = bs.length := by
        simpa using hlen
      have ha := hx a (List.mem_cons_self a as)
      have hb := hy b (List.mem_cons_self b bs)
      have has : ∀ c ∈ as, isDigitChar c = true :=
        fun c hc => hx c (List.mem_cons_of_mem a hc)
      have hbs : ∀ c ∈ bs, isDigitChar c = true :=
        fun c hc => hy c (List.mem_cons_of_mem b hc)
      have hva := digit_facts a ha
      have hvb := digit_facts b hb
      have hNa := natOfChars_lt_pow as has
      have hNb := natOfChars_lt_pow bs hbs
      by_cases hab : a = b
      · subst hab
        rw [natOfChars_cons, natOfChars_cons, hlen2]
        simp only [goStrLt, eq_self_iff_true, if_true]
        rw [ih bs hlen2 has hbs]
        omega
      · simp only [goStrLt, if_neg hab, decide_eq_true_eq]
        rw [natOfChars_cons, natOfChars_cons, hlen2]
        have hmono : ∀ u w : Nat, u < w → u ≤ 9 →
            w ≤ 9 → ∀ N M : Nat, N < 10 ^ bs.length → M < 10 ^ bs.length →
            u * 10 ^ bs.length + N < w * 10 ^ bs.length + M := by
          intro u w huw hu hw N M hN hM
          calc u * 10 ^ bs.length + N < u * 10 ^ bs.length + 10 ^ bs.length := by
                omega
            _ = (u + 1) * 10 ^ bs.length := by ring
            _ ≤ w * 10 ^ bs.length := Nat.mul_le_mul_right _ (by omega)
            _ ≤ w * 10 ^ bs.length + M := by omega
        rw [hlen2] at hNa
        constructor
        · intro hlt
          have : a.toNat < b.toNat := ((digit_cmp a b ha hb).1).mp hlt
          exact hmono _ _ (by omega) (by omega) (by omega) _ _ hNa hNb
        · intro hval
          rcases lt_trichotomy a b with h1 | h1 | h1
          · exact h1
          · exact absurd h1 hab
          · have : b.toNat < a.toNat := ((digit_cmp b a hb ha).1).mp h1
            have := hmono (b.toNat - 48) (a.toNat - 48) (by omega) (by omega)
              (by omega) (natOfChars bs) (natOfChars as) hNb hNa
            omega

theorem validate_shape (v : Str) (h : Validate v = true) :
    ∃ m n, (m = '5' ∨ m = '8') ∧ isDigitChar n = true ∧
      ((∃ d, isDigitChar d = true ∧ v = [m, '.', n, '.', d]) ∨
       (∃ d s, isDigitChar d = true ∧
         v = m :: '.' :: n :: '.' :: d :: '-' :: s) ∨
       (∃ d e, isDigitChar d = true ∧ isDigitChar e = true ∧
         v = [m, '.', n, '.', d, e]) ∨
       (∃ d e s, isDigitChar d = true ∧ isDigitChar e = true ∧
         v = m :: '.' :: n :: '.' :: d :: e :: '-' :: s)) := by
  rcases v with _ | ⟨m, _ | ⟨c1, _ | ⟨n, _ | ⟨c2, rest⟩⟩⟩⟩
  · simp [Validate] at h
  · simp [Validate] at h
  · simp [Validate] at h
  · simp [Validate] at h
  · simp only [Validate, Bool.and_eq_true, Bool.or_eq_true,
      decide_eq_true_eq] at h
    obtain ⟨⟨⟨⟨hm, hc1⟩, hn⟩, hc2⟩, hp⟩ := h
    subst hc1
    subst hc2
    refine ⟨m, n, hm, hn, ?_⟩
    rcases rest with _ | ⟨d, rest2⟩
    · simp [patchOk] at hp
    · rcases rest2 with _ | ⟨e, rest3⟩
      · simp only [patchOk, Bool.and_eq_true] at hp
        exact Or.inl ⟨d, hp.1, rfl⟩
      · by_cases he : e = '-'
        · subst he
          simp only [patchOk, Bool.and_eq_true, if_pos rfl] at hp
          exact Or.inr (Or.inl ⟨d, rest3, hp.1, rfl⟩)
        · rcases rest3 with _ | ⟨f, rest4⟩
          · simp only [patchOk, if_neg he, Bool.and_eq_true] at hp
            exact Or.inr (Or.inr (Or.inl ⟨d, e, hp.1, hp.2.1, rfl⟩))
          · by_cases hf : f = '-'
            · subst hf
              simp only [patchOk, if_neg he, if_pos rfl,
                Bool.and_eq_true] at hp
              exact Or.inr (Or.inr (Or.inr ⟨d, e, rest4, hp.1, hp.2.1, rfl⟩))
            · simp [patchOk, if_neg he, if_neg hf] at hp

theorem version_parts (v : Str) (h : Validate v = true) :
    ∃ m n p, splitVersion v = [[m], [n], p, (breakDash v).2] ∧
      (m = '5' ∨ m = '8') ∧ isDigitChar n = true ∧
      (∀ c ∈ p, isDigitChar c = true) ∧
      ((∃ d, p = [d]) ∨ (∃ d e, p = [d, e])) := by
  obtain ⟨m, n, hm, hn, hshape⟩ := validate_shape v h
  have hmd : m ≠ '-' := by rcases hm with rfl | rfl <;> decide
  have hmdot : m ≠ '.' := by rcases hm with rfl | rfl <;> decide
  obtain ⟨_, _, hnd, hndot, _⟩ := digit_facts n hn
  rcases hshape with ⟨d, hd, rfl⟩ | ⟨d, s, hd, rfl⟩ |
    ⟨d, e, hd, he, rfl⟩ | ⟨d, e, s, hd, he, rfl⟩
  · obtain ⟨_, _, hdd, hddot, _⟩ := digit_facts d hd
    have hb : breakDash [m, '.', n, '.', d] = ([m, '.', n, '.', d], []) := by
      simp [breakDash, hmd, hnd, hdd]
    refine ⟨m, n, [d], ?_, hm, hn, ?_, ?_⟩
    · simp [splitVersion, hb, splitOnChar, hmdot, hndot, hddot]
    · intro c hc
      simp at hc
      subst hc
      exact hd
    · exact Or.inl ⟨d, rfl⟩
  · obtain ⟨_, _, hdd, hddot, _⟩ := digit_facts d hd
    have hb : breakDash (m :: '.' :: n :: '.' :: d :: '-' :: s) =
        ([m, '.', n, '.', d], s) := by
      simp [breakDash, hmd, hnd, hdd]
    refine ⟨m, n, [d], ?_, hm, hn, ?_, ?_⟩
    · simp [splitVersion, hb, splitOnChar, hmdot, hndot, hddot]
    · intro c hc
      simp at hc
      subst hc
      exact hd
    · exact Or.inl ⟨d, rfl⟩
  · obtain ⟨_, _, hdd, hddot, _⟩ := digit_facts d hd
    obtain ⟨_, _, hed, hedot, _⟩ := digit_facts e he
    have hb : breakDash [m, '.', n, '.', d, e] = ([m, '.', n, '.', d, e], []) := by
      simp [breakDash, hmd, hnd, hdd, hed]
    refine ⟨m, n, [d, e], ?_, hm, hn, ?_, ?_⟩
    · simp [splitVersion, hb, splitOnChar, hmdot, hndot, hddot, hedot]
    · intro c hc
      simp at hc
      rcases hc with rfl | rfl
      · exact hd
      · exact he
    · exact Or.inr ⟨d, e, rfl⟩
  · obtain ⟨_, _, hdd, hddot, _⟩ := digit_facts d hd
    obtain ⟨_, _, hed, hedot, _⟩ := digit_facts e he
    have hb : breakDash (m :: '.' :: n :: '.' :: d :: e :: '-' :: s) =
        ([m, '.', n, '.', d, e], s) := by
      simp [breakDash, hmd, hnd, hdd, hed]
    refine ⟨m, n, [d, e], ?_, hm, hn, ?_, ?_⟩
    · simp [splitVersion, hb, splitOnChar, hmdot, hndot, hddot, hedot]
    · intro c hc
      simp at hc
      rcases hc with rfl | rfl
      · exact hd
      · exact he
    · exact Or.inr ⟨d, e, rfl⟩

theorem natDecimalAux_succ (fuel n : Nat) (acc : Str) :
    natDecimalAux (fuel + 1) n acc =
      if n < 10 then digitChar (n % 10) :: acc
      else natDecimalAux fuel (n / 10) (digitChar (n % 10) :: acc) := rfl

theorem natDecimal_lt10 (n : Nat) (h : n < 10) :
    natDecimal n = [digitChar n] := by
  rw [natDecimal, natDecimalAux_succ, if_pos h, Nat.mod_eq_of_lt h]

theorem natDecimal_two (n : Nat) (h1 : 10 ≤ n) (h2 : n < 100) :
    natDecimal n = [digitChar (n / 10), digitChar (n % 10)] := by
  rw [natDecimal, natDecimalAux_succ, if_neg (by omega)]
  obtain ⟨f, rfl⟩ : ∃ f, n = f + 1 := ⟨n - 1, by omega⟩
  rw [natDecimalAux_succ, if_pos (by omega), Nat.mod_eq_of_lt (by omega)]

theorem natOfChars_one (c : Char) : natOfChars [c] = c.toNat - 48 := by
  simp [natOfChars]

theorem natOfChars_two (d e : Char) :
    natOfChars [d, e] = (d.toNat - 48) * 10 + (e.toNat - 48) := by
  simp [natOfChars]

theorem pad2_one (d : Char) (hd : isDigitChar d = true) :
    pad2 (natOfChars [d]) = ['0', d] := by
  obtain ⟨h48, h57, _, _, _⟩ := digit_facts d hd
  rw [natOfChars_one, pad2, if_pos (by omega), natDecimal_lt10 _ (by omega),
    digitChar_of_digit d hd]

theorem pad2_two (d e : Char) (hd : isDigitChar d = true)
    (he : isDigitChar e = true) : pad2 (natOfChars [d, e]) = [d, e] := by
  obtain ⟨hd48, hd57, _, _, _⟩ := digit_facts d hd
  obtain ⟨he48, he57, _, _, _⟩ := digit_facts e he
  rw [natOfChars_two]
  by_cases h0 : d.toNat - 48 = 0
  · have hdz : d = '0' := by
      have hrt := digitChar_of_digit d hd
      rw [h0] at hrt
      have : digitChar 0 = '0' := by decide
      rw [this] at hrt
      exact hrt.symm
    rw [h0, pad2]
    simp only [Nat.zero_mul, Nat.zero_add]
    rw [if_pos (by omega), natDecimal_lt10 _ (by omega),
      digitChar_of_digit e he, hdz]
  · have hge : 10 ≤ (d.toNat - 48) * 10 + (e.toNat - 48) := by omega
    have hlt : (d.toNat - 48) * 10 + (e.toNat - 48) < 100 := by omega
    rw [pad2, if_neg (by omega), natDecimal_two _ hge hlt]
    have hdiv : ((d.toNat - 48) * 10 + (e.toNat - 48)) / 10 = d.toNat - 48 := by
      omega
    have hmod : ((d.toNat - 48) * 10 + (e.toNat - 48)) % 10 = e.toNat - 48 := by
      omega
    rw [hdiv, hmod, digitChar_of_digit d hd, digitChar_of_digit e he]

theorem normalized_digits (v : Str) (h : Validate v = true) :
    (normalizedChars v).length = 5 ∧
    (∀ c ∈ normalizedChars v, isDigitChar c = true) ∧
    natOfChars (normalizedChars v) = verValue v := by
  obtain ⟨m, n, p, hsplit, hm, hn, hpall, hpshape⟩ := version_parts v h
  have hmdig : isDigitChar m = true := by rcases hm with rfl | rfl <;> decide
  have hvm : natDecimal (natOfChars [m]) = [m] := by
    rcases hm with rfl | rfl <;> decide
  have hnorm0 : normalizedChars v =
      natDecimal (natOfChars [m]) ++ pad2 (natOfChars [n]) ++
        pad2 (natOfChars p) := by
    simp [normalizedChars, hsplit]
  have hvv : verValue v =
      natOfChars [m] * 10000 + natOfChars [n] * 100 + natOfChars p := by
    simp [verValue, hsplit]
  rcases hpshape with ⟨d, rfl⟩ | ⟨d, e, rfl⟩
  · have hd : isDigitChar d = true := hpall d (by simp)
    have hnorm : normalizedChars v = [m, '0', n, '0', d] := by
      rw [hnorm0, hvm, pad2_one n hn, pad2_one d hd]
      simp
    refine ⟨by rw [hnorm]; rfl, ?_, ?_⟩
    · intro c hc
      rw [hnorm] at hc
      simp only [List.mem_cons, List.not_mem_nil, or_false] at hc
      rcases hc with rfl | rfl | rfl | rfl | rfl
      · exact hmdig
      · decide
      · exact hn
      · decide
      · exact hd
    · rw [hnorm, hvv, natOfChars_one, natOfChars_one]
      simp [natOfChars]
      omega
  · have hd : isDigitChar d = true := hpall d (by simp)
    have he : isDigitChar e = true := hpall e (by simp)
    have hnorm : normalizedChars v = [m, '0', n, d, e] := by
      rw [hnorm0, hvm, pad2_one n hn, pad2_two d e hd he]
      simp
    refine ⟨by rw [hnorm]; rfl, ?_, ?_⟩
    · intro c hc
      rw [hnorm] at hc
      simp only [List.mem_cons, List.not_mem_nil, or_false] at hc
      rcases hc with rfl | rfl | rfl | rfl | rfl
      · exact hmdig
      · decide
      · exact hn
      · exact hd
      · exact he
    · rw [hnorm, hvv, natOfChars_one, natOfChars_one, natOfChars_two]
      simp [natOfChars]
      omega

theorem breakDash_no_dash (v : Str) (h : '-' ∉ v) : (breakDash v).2 = [] := by
  induction v with
  | nil => rfl
  | cons c s ih =>
    have hc : c ≠ '-' := fun hc => h (hc ▸ List.mem_cons_self c s)
    have hs : '-' ∉ s := fun hm => h (List.mem_cons_of_mem c hm)
    simp [breakDash, hc, ih hs]

/-- C8: for validated inputs, `Compare` returns `-1`, `0` or `1`
according to the numeric comparison of the
`major * 10000 + minor * 100 + patch` values (so a difference only in
the release suffix cannot affect the result); it fails with the
invalid-version error when either input fails validation; and the
three scenario comparisons hold. -/
theorem compare_by_triples :
    (∀ v1 v2 : Str, Validate v1 = true → Validate v2 = true →
      Compare v1 v2 = Except.ok (ordSign (verValue v1) (verValue v2))) ∧
    (∀ v1 v2 : Str, Validate v1 = false ∨ Validate v2 = false →
      Compare v1 v2 = Except.error VerErr.invalidVersion) ∧
    Compare ("8.0.30-rel".toList) ("5.7.55".toList) = Except.ok 1 ∧
    Compare ("5.7.55".toList) ("8.0.30-rel".toList) = Except.ok (-1) ∧
    Compare ("8.0.30-rel".toList) ("8.0.30-rel1".toList) = Except.ok 0 := by
  refine ⟨?_, ?_, by decide, by decide, by decide⟩
  · intro v1 v2 h1 h2
    obtain ⟨hl1, hd1, hv1⟩ := normalized_digits v1 h1
    obtain ⟨hl2, hd2, hv2⟩ := normalized_digits v2 h2
    have hlen : (normalizedChars v1).length = (normalizedChars v2).length := by
      rw [hl1, hl2]
    have hiff12 := goStrLt_iff_val _ _ hlen hd1 hd2
    have hiff21 := goStrLt_iff_val _ _ hlen.symm hd2 hd1
    rw [hv1, hv2] at hiff12 hiff21
    simp only [Compare, h1, h2, Bool.not_true, Bool.false_eq_true, if_false]
    rcases lt_trichotomy (verValue v1) (verValue v2) with hlt | heq | hgt
    · rw [if_pos (hiff12.mpr hlt)]
      simp [ordSign, hlt]
    · have hf1 : ¬ goStrLt (normalizedChars v1) (normalizedChars v2) = true :=
        fun hh => absurd (hiff12.mp hh) (by omega)
      have hf2 : ¬ goStrLt (normalizedChars v2) (normalizedChars v1) = true :=
        fun hh => absurd (hiff21.mp hh) (by omega)
      rw [if_neg hf1, if_neg hf2]
      simp [ordSign, heq]
    · have hf1 : ¬ goStrLt (normalizedChars v1) (normalizedChars v2) = true :=
        fun hh => absurd (hiff12.mp hh) (by omega)
      rw [if_neg hf1, if_pos (hiff21.mpr hgt)]
      have hns : ¬ verValue v1 < verValue v2 := by omega
      simp [ordSign, hns, hgt]
  · intro v1 v2 h
    rcases h with h | h <;> simp [Compare, h]

/-- Witness for C8: a validated pair and an invalid input. -/
theorem compare_by_triples_witness :
    Compare ("8.0.30-rel".toList) ("5.7.55".toList) =
      Except.ok (ordSign (verValue ("8.0.30-rel".toList))
        (verValue ("5.7.55".toList))) ∧
    Compare ("9.0.30".toList) ("5.7.55".toList) =
      Except.error VerErr.invalidVersion :=
  ⟨compare_by_triples.1 _ _ (by decide) (by decide),
   compare_by_triples.2.1 _ _ (Or.inl (by decide))⟩

/-- C9 counterexample: on a valid version with no release suffix,
`Release` returns the one-character string `"-"`, not the empty
string. -/
theorem release_no_suffix_counterexample :
    Release ("8.0.30".toList) = Except.ok ['-'] ∧
    Release ("8.0.30".toList) ≠ Except.ok ([] : Str) := by decide

/-- C9 as amended: for validated input, `Release` returns the suffix
prefixed by `-`; when the string has no dash, that is the string `"-"`
(not the empty string); it fails with the invalid-version error when
validation fails. -/
theorem release_dash_prefixed (v : Str) :
    (Validate v = true → Release v = Except.ok ('-' :: (breakDash v).2)) ∧
    (Validate v = true → '-' ∉ v → Release v = Except.ok ['-']) ∧
    (Validate v = false → Release v = Except.error VerErr.invalidVersion) := by
  have main : Validate v = true →
      Release v = Except.ok ('-' :: (breakDash v).2) := by
    intro h
    obtain ⟨m, n, p, hsplit, _⟩ := version_parts v h
    simp [Release, h, hsplit]
  refine ⟨main, ?_, ?_⟩
  · intro h hnd
    rw [main h, breakDash_no_dash v hnd]
  · intro h
    simp [Release, h]

/-- Witness for the amended C9. -/
theorem release_dash_prefixed_witness :
    Release ("8.0.30-rel".toList) =
      Except.ok ('-' :: (breakDash ("8.0.30-rel".toList)).2) ∧
    Release ("8.0.30".toList) = Except.ok ['-'] ∧
    Release ("8x".toList) = Except.error VerErr.invalidVersion :=
  ⟨(release_dash_prefixed _).1 (by decide),
   (release_dash_prefixed _).2.1 (by decide) (by decide),
   (release_dash_prefixed _).2.2 (by decide)⟩
